import Mathlib

/-!
Verification development for the `ai_webscraper` repository.

We shallowly embed the Python sources:
  * `utils/bs4.py` — `normalize_url`, `find_pagination_candidates`,
    `find_cookie_consent_candidates`, `extract_links_with_text`;
  * `crawlers/request_crawler.py` — `AsyncWebRequestHandler.get_content`,
    `AsyncDepthCrawler.process_url` / `crawl_depth_level` / `crawl`.

The HTML parse tree is embedded as a flat list of nodes carrying their tree
path (BeautifulSoup navigates by parent pointers, which paths model
directly).  Machine-level details that the claims do not touch (aiohttp
transport, bytes vs str) are abstracted as oracles.  `urllib.parse` is
modelled from CPython's pure-python implementation of `urlsplit`,
`urlparse`, `urlunparse` and `urldefrag`.
-/

namespace WebScraper

/-! ## Character-list string utilities

Python string primitives (`in`, `find`, `strip`, `split`, `lower`,
`str.isdigit`) modelled over `List Char` so that everything reduces in the
kernel. -/

/-- Characters of a string. -/
def chars (s : String) : List Char := s.data

/-- String from characters. -/
def ofChars (l : List Char) : String := String.mk l

/-- Python whitespace test (ASCII subset, which is all the sources use). -/
def isSpaceChar (c : Char) : Bool := c = ' ' || c = '\t' || c = '\n' || c = '\r'

/-- Python `str.strip()`. -/
def pyStrip (s : String) : String :=
  ofChars (((chars s).dropWhile isSpaceChar).reverse.dropWhile isSpaceChar |>.reverse)

/-- Python `str.lower()` (ASCII case folding, as needed by `re.I` and scheme
lowering on the inputs in scope). -/
def pyLower (s : String) : String := ofChars ((chars s).map Char.toLower)

/-- `pre` is a leading segment of `l`. -/
def leadsList : List Char → List Char → Bool
  | [], _ => true
  | _ :: _, [] => false
  | a :: as, b :: bs => a = b && leadsList as bs

/-- Substring test on char lists (Python `pat in s`). -/
def infixList (pat : List Char) : List Char → Bool
  | [] => leadsList pat []
  | c :: cs => leadsList pat (c :: cs) || infixList pat cs

/-- Python `pat in s` (substring containment). -/
def strContains (s pat : String) : Bool := infixList (chars pat) (chars s)

/-- Python `s.find(c)`: index of the first occurrence of character `c`. -/
def charIndex (c : Char) : List Char → Option Nat
  | [] => none
  | b :: bs => if b = c then some 0 else (charIndex c bs).map (· + 1)

/-- Python `s.split(c, 1)`: split at the first occurrence of `c`; the pair is
(before, after); when `c` is absent the whole string is `before`. -/
def splitFirst (s : String) (c : Char) : String × String :=
  match charIndex c (chars s) with
  | none => (s, "")
  | some i => (ofChars ((chars s).take i), ofChars ((chars s).drop (i + 1)))

/-- Python `c in s` for a single character. -/
def hasChar (s : String) (c : Char) : Bool := (charIndex c (chars s)).isSome

/-- Python `str.isdigit()` on ASCII digits (all texts in scope are ASCII). -/
def pyIsDigit (s : String) : Bool := s ≠ "" && (chars s).all Char.isDigit

/-- Python `s.endswith(suffix)` for the one-character suffixes used here. -/
def endsWithChar (s : String) (c : Char) : Bool :=
  match (chars s).reverse with
  | [] => false
  | b :: _ => b = c

/-- Python `s[:-1]`. -/
def dropLastChar (s : String) : String := ofChars ((chars s).dropLast)

/-! ## `urllib.parse` model

Mirrors CPython's `urlsplit` / `urlparse` / `urlunsplit` / `urlunparse` /
`urldefrag` (pure-python, `Lib/urllib/parse.py`). -/

/-- Characters legal in a URL scheme after the first (CPython `scheme_chars`). -/
def schemeChar (c : Char) : Bool :=
  c.isAlpha || c.isDigit || c = '+' || c = '-' || c = '.'

/-- CPython removes tab, CR and LF from a URL before splitting
(`_UNSAFE_URL_BYTES_TO_REMOVE`). -/
def removeUnsafe (s : String) : String :=
  ofChars ((chars s).filter (fun c => !(c = '\t' || c = '\r' || c = '\n')))

/-- Result of `urlsplit`: scheme, netloc, path, query, fragment. -/
structure SplitUrl where
  scheme : String
  netloc : String
  path : String
  query : String
  fragment : String
deriving DecidableEq

/-- CPython `_splitnetloc`: the netloc runs from position 2 up to the first
`/`, `?` or `#`. -/
def splitNetloc (rest : List Char) : List Char × List Char :=
  let netloc := rest.takeWhile (fun c => !(c = '/' || c = '?' || c = '#'))
  (netloc, rest.drop netloc.length)

/-- CPython `urlsplit` (with `allow_fragments=True`). -/
def urlsplit (url0 : String) : SplitUrl :=
  let url1 := removeUnsafe url0
  let cs := chars url1
  -- scheme: chars before the first ':' when they form a valid scheme
  let (scheme, rest) :=
    match charIndex ':' cs with
    | none => ("", cs)
    | some i =>
      if 0 < i ∧ (cs.headD ' ').isAlpha ∧ (cs.take i).all schemeChar then
        (pyLower (ofChars (cs.take i)), cs.drop (i + 1))
      else ("", cs)
  -- netloc: present when the remainder starts with "//"
  let (netloc, rest2) :=
    if leadsList (chars "//") rest then
      let (n, r) := splitNetloc (rest.drop 2)
      (ofChars n, r)
    else ("", rest)
  -- fragment: split at the first '#'
  let (rest3, fragment) := splitFirst (ofChars rest2) '#'
  -- query: split at the first '?'
  let (path, query) := splitFirst rest3 '?'
  ⟨scheme, netloc, path, query, fragment⟩

/-- Result of `urlparse`: `urlsplit` plus the `;params` of the last path
segment. -/
structure ParsedUrl where
  scheme : String
  netloc : String
  path : String
  params : String
  query : String
  fragment : String
deriving DecidableEq

/-- CPython `_splitparams`: split `;params` off the last path segment. -/
def splitParams (path : String) : String × String :=
  let cs := chars path
  if hasChar path '/' then
    let lastSlash := cs.length - 1 - ((charIndex '/' cs.reverse).getD 0)
    match charIndex ';' (cs.drop lastSlash) with
    | none => (path, "")
    | some j => (ofChars (cs.take (lastSlash + j)), ofChars (cs.drop (lastSlash + j + 1)))
  else
    match charIndex ';' cs with
    | none => (path, "")
    | some i => (ofChars (cs.take i), ofChars (cs.drop (i + 1)))

/-- CPython `urlparse`. -/
def pyUrlparse (url : String) : ParsedUrl :=
  let s := urlsplit url
  let (path, params) := if hasChar s.path ';' then splitParams s.path else (s.path, "")
  ⟨s.scheme, s.netloc, path, params, s.query, s.fragment⟩

/-- CPython `urlunsplit`. -/
def urlunsplit (scheme netloc path query fragment : String) : String :=
  let url :=
    if netloc ≠ "" ∨ (path ≠ "" ∧ leadsList (chars "//") (chars path)) then
      (if path ≠ "" ∧ ¬ leadsList (chars "/") (chars path) then
        "//" ++ netloc ++ "/" ++ path
      else "//" ++ netloc ++ path)
    else path
  let url := if scheme ≠ "" then scheme ++ ":" ++ url else url
  let url := if query ≠ "" then url ++ "?" ++ query else url
  if fragment ≠ "" then url ++ "#" ++ fragment else url

/-- CPython `urlunparse`. -/
def urlunparse (p : ParsedUrl) : String :=
  let path := if p.params ≠ "" then p.path ++ ";" ++ p.params else p.path
  urlunsplit p.scheme p.netloc path p.query p.fragment

/-- CPython `urldefrag`: identity when there is no `#`, otherwise re-assemble
the parse with an empty fragment. -/
def urldefrag (url : String) : String :=
  if hasChar url '#' then urlunparse { pyUrlparse url with fragment := "" } else url

/-! ## `normalize_url` (`utils/bs4.py`, lines 32–60)

```python
if base_url: resolved_url = urljoin(base_url, url)
else:        resolved_url = url
defragged_url, _ = urldefrag(resolved_url)
parsed_url = urlparse(defragged_url)
if parsed_url.path.endswith("/") and parsed_url.path != "/":
    normalized = defragged_url[:-1]
else:
    normalized = defragged_url
return normalized
```

`urljoin` is the external `urllib` collaborator; the claims settled here
exercise the `base_url=None` branch, where `resolved_url = url`, so the
model takes the already-resolved URL. -/

/-- The trailing-slash step of `normalize_url` applied to the resolved URL;
with `base_url=None` this is exactly `normalize_url(url)`. -/
def normalize_url (url : String) : String :=
  let defragged := urldefrag url
  let parsed := pyUrlparse defragged
  if endsWithChar parsed.path '/' ∧ parsed.path ≠ "/" then dropLastChar defragged
  else defragged

/-- Modelled from the spec: "Strip any fragment component. If the path ends
with `/` and the path is not exactly `/`, drop the trailing `/`" — the slash
is removed from the *path component*, every other component (scheme,
authority, query) left unchanged, and the URL re-assembled. -/
def normalize_url_spec (url : String) : String :=
  let defragged := urldefrag url
  let parsed := pyUrlparse defragged
  if endsWithChar parsed.path '/' ∧ parsed.path ≠ "/" then
    urlunparse { parsed with path := dropLastChar parsed.path }
  else defragged

/-! ## Link Registry (`crawlers/request_crawler.py`, `process_url` lines 140–152)

```python
for link_data in extracted_links:
    link_url = link_data['url']
    if link_url not in self.all_links:
        self.all_links[link_url] = {
            'url': link_url,
            'associated_texts': link_data['associated_texts'],
            'found_on_urls': [link_data['found_on_url']],
            'depth_found': current_depth
        }
    else:
        if link_data['found_on_url'] not in self.all_links[link_url]['found_on_urls']:
            self.all_links[link_url]['found_on_urls'].append(link_data['found_on_url'])
```

`self.all_links` is a Python dict, i.e. an insertion-ordered association of
URL keys to records where an existing key is updated in place; the
association list below with first-occurrence update has exactly those
semantics. -/

/-- A Link Record, as stored in `self.all_links`. -/
structure LinkRecord where
  url : String
  associated_texts : List String
  found_on_urls : List String
  depth_found : Nat
deriving DecidableEq

/-- The Link Registry `self.all_links`. -/
abbrev Registry := List (String × LinkRecord)

/-- Dict lookup (first matching key). -/
def regFind : Registry → String → Option LinkRecord
  | [], _ => none
  | (k, r) :: rest, u => if k = u then some r else regFind rest u

/-- One iteration of the aggregation loop of `process_url` (lines 140–152)
for a single extracted `link_data = (linkUrl, texts)` discovered on page
`foundOn` at depth `depth`. -/
def addLink : Registry → String → Nat → String × List String → Registry
  | [], foundOn, depth, (u, ts) => [(u, ⟨u, ts, [foundOn], depth⟩)]
  | (k, r) :: rest, foundOn, depth, (u, ts) =>
    if k = u then
      (k, if foundOn ∈ r.found_on_urls then r
          else { r with found_on_urls := r.found_on_urls ++ [foundOn] }) :: rest
    else (k, r) :: addLink rest foundOn depth (u, ts)

/-- One aggregation event: a link `(linkUrl, texts)` extracted from page
`page` while processing depth `depth`. -/
structure AggStep where
  page : String
  depth : Nat
  linkUrl : String
  texts : List String

/-- A sequence of aggregation events applied to the registry (any
interleaving of `process_url` completions across the crawl). -/
def applySteps (reg : Registry) (steps : List AggStep) : Registry :=
  steps.foldl (fun r st => addLink r st.page st.depth (st.linkUrl, st.texts)) reg

lemma regFind_addLink_other (reg : Registry) (p : String) (d : Nat)
    (l : String × List String) (u : String) (hne : l.1 ≠ u) :
    regFind (addLink reg p d l) u = regFind reg u := by
  obtain ⟨lu, lts⟩ := l
  simp only at hne
  induction reg with
  | nil => simp [addLink, regFind, hne]
  | cons hd tl ih =>
    obtain ⟨k, r⟩ := hd
    by_cases hk : k = lu
    · subst hk
      have hku : k ≠ u := hne
      simp [addLink, regFind, hku]
    · by_cases hku : k = u
      · simp [addLink, regFind, hk, hku, Ne.symm hne]
      · simp only [addLink, if_neg hk, regFind, if_neg hku]
        exact ih

lemma regFind_addLink_existing (reg : Registry) (p : String) (d : Nat)
    (u : String) (ts : List String) (r : LinkRecord)
    (h : regFind reg u = some r) :
    regFind (addLink reg p d (u, ts)) u =
      some (if p ∈ r.found_on_urls then r
            else { r with found_on_urls := r.found_on_urls ++ [p] }) := by
  induction reg with
  | nil => simp [regFind] at h
  | cons hd tl ih =>
    obtain ⟨k, r'⟩ := hd
    simp only [regFind] at h
    simp only [addLink]
    by_cases hk : k = u
    · rw [if_pos hk] at h
      obtain rfl := Option.some.inj h
      rw [if_pos hk, regFind, if_pos hk]
    · rw [if_neg hk] at h
      rw [if_neg hk, regFind, if_neg hk]
      exact ih h

lemma regFind_addLink_new (reg : Registry) (p : String) (d : Nat)
    (u : String) (ts : List String) (h : regFind reg u = none) :
    regFind (addLink reg p d (u, ts)) u = some ⟨u, ts, [p], d⟩ := by
  induction reg with
  | nil => simp [addLink, regFind]
  | cons hd tl ih =>
    obtain ⟨k, r'⟩ := hd
    by_cases hk : k = u
    · subst hk; simp [regFind] at h
    · simp only [regFind, if_neg hk] at h
      simp only [addLink, if_neg hk, regFind, if_neg hk]
      exact ih h

/-- A single aggregation event can only leave an existing record's
`depth_found` and `associated_texts` alone, and can only append to its
`found_on_urls`. -/
lemma addLink_preserves (reg : Registry) (p : String) (d : Nat)
    (l : String × List String) (u : String) (r : LinkRecord)
    (h : regFind reg u = some r) :
    ∃ r', regFind (addLink reg p d l) u = some r' ∧
      r'.depth_found = r.depth_found ∧
      r'.associated_texts = r.associated_texts ∧
      ∃ t, r'.found_on_urls = r.found_on_urls ++ t := by
  obtain ⟨lu, lts⟩ := l
  by_cases hlu : lu = u
  · subst hlu
    refine ⟨_, regFind_addLink_existing reg p d lu lts r h, ?_⟩
    by_cases hp : p ∈ r.found_on_urls
    · rw [if_pos hp]; exact ⟨rfl, rfl, [], by simp⟩
    · rw [if_neg hp]; exact ⟨rfl, rfl, [p], rfl⟩
  · exact ⟨r, by rw [regFind_addLink_other reg p d (lu, lts) u hlu]; exact h,
      rfl, rfl, [], by simp⟩

lemma applySteps_preserves (steps : List AggStep) (reg : Registry)
    (u : String) (r : LinkRecord) (h : regFind reg u = some r) :
    ∃ r', regFind (applySteps reg steps) u = some r' ∧
      r'.depth_found = r.depth_found ∧
      r'.associated_texts = r.associated_texts ∧
      ∃ t, r'.found_on_urls = r.found_on_urls ++ t := by
  induction steps generalizing reg r with
  | nil => exact ⟨r, h, rfl, rfl, [], by simp⟩
  | cons st rest ih =>
    obtain ⟨r1, h1, hd1, ht1, t1, hf1⟩ :=
      addLink_preserves reg st.page st.depth (st.linkUrl, st.texts) u r h
    obtain ⟨r2, h2, hd2, ht2, t2, hf2⟩ := ih (addLink reg st.page st.depth (st.linkUrl, st.texts)) r1 h1
    refine ⟨r2, h2, hd2.trans hd1, ht2.trans ht1, t1 ++ t2, ?_⟩
    rw [hf2, hf1, List.append_assoc]

/-! ## Depth crawler (`crawlers/request_crawler.py`, lines 92–204)

`AsyncDepthCrawler.crawl` drives `crawl_depth_level` once per depth while
`current_urls and current_depth < self.max_depth`; each level runs
`process_url` for every frontier URL and deduplicates the collected next
frontier preserving first-seen order.

The model is sequential: within one level `asyncio.gather` completes the
per-URL tasks in an unspecified order, and the model fixes frontier order.
The claim settled against this model (C6, `max_depth = 0`) is insensitive
to that order because with `max_depth = 0` no task is ever launched.

Fetching plus link extraction is abstracted as an oracle
`String → Option (List (String × List String))` mapping a URL to the
extracted `(url, associated_texts)` records, `none` meaning a failed fetch
(`get_content` returned `None`) or empty content. -/

/-- `AsyncDepthCrawler.is_same_domain` (lines 103–110): compares
`urlparse(url).netloc` of the two URLs. -/
def is_same_domain (url1 url2 : String) : Bool :=
  (urlsplit url1).netloc = (urlsplit url2).netloc

/-- Crawler state: `self.visited_urls` (a set, modelled with first-insertion
order), `self.all_links`, plus the trace of URLs dispatched to
`get_content`. -/
structure CrawlState where
  visited : List String
  allLinks : Registry
  fetched : List String
deriving DecidableEq

/-- `process_url` (lines 112–161), sequential form: domain check, visited
check, mark visited, fetch, aggregate extracted links and collect the
next-level URLs (`current_depth < self.max_depth - 1`, written here as
`depth + 1 < maxDepth`, which agrees with Python's arithmetic also at
`max_depth = 0`). -/
def processUrl (oracle : String → Option (List (String × List String)))
    (baseDomain : String) (maxDepth depth : Nat) (st : CrawlState) (url : String) :
    CrawlState × List String :=
  if ¬ is_same_domain url ("https://" ++ baseDomain) then (st, [])
  else if url ∈ st.visited then (st, [])
  else
    let st1 := { st with visited := st.visited ++ [url],
                         fetched := st.fetched ++ [url] }
    match oracle url with
    | none => (st1, [])
    | some links =>
      links.foldl (fun acc lnk =>
        let st' := { acc.1 with allLinks := addLink acc.1.allLinks url depth (lnk.1, lnk.2) }
        if depth + 1 < maxDepth ∧ lnk.1 ∉ st'.visited then (st', acc.2 ++ [lnk.1])
        else (st', acc.2)) (st1, [])

/-- Order-preserving deduplication of the next frontier (lines 182–188). -/
def dedupKeep (l : List String) : List String :=
  l.foldl (fun acc u => if u ∈ acc then acc else acc ++ [u]) []

/-- `crawl_depth_level` (lines 163–190), sequential form. -/
def crawlDepthLevel (oracle : String → Option (List (String × List String)))
    (baseDomain : String) (maxDepth depth : Nat) (urls : List String)
    (st : CrawlState) : CrawlState × List String :=
  if urls = [] ∨ maxDepth ≤ depth then (st, [])
  else
    let (st', nxt) := urls.foldl (fun acc u =>
      let (s, n) := processUrl oracle baseDomain maxDepth depth acc.1 u
      (s, acc.2 ++ n)) (st, ([] : List String))
    (st', dedupKeep nxt)

/-- The `while current_urls and current_depth < self.max_depth` loop of
`crawl` (lines 192–204).  The loop runs at most `maxDepth` iterations
(depth increments each pass), so `maxDepth - depth` is fuel enough; the
fuel-0 case coincides with the loop guard `current_depth < max_depth`
being false. -/
def crawlLoop (oracle : String → Option (List (String × List String)))
    (baseDomain : String) (maxDepth : Nat) :
    Nat → Nat → List String → CrawlState → CrawlState
  | 0, _, _, st => st
  | fuel + 1, depth, urls, st =>
    if urls = [] ∨ maxDepth ≤ depth then st
    else
      let (st', nxt) := crawlDepthLevel oracle baseDomain maxDepth depth urls st
      crawlLoop oracle baseDomain maxDepth fuel (depth + 1) nxt st'

/-- `AsyncDepthCrawler.crawl(start_url)` with `max_depth = maxDepth`:
`base_domain = urlparse(start_url).netloc`, frontier `[start_url]`,
depth 0. -/
def crawl (oracle : String → Option (List (String × List String)))
    (startUrl : String) (maxDepth : Nat) : CrawlState :=
  crawlLoop oracle (urlsplit startUrl).netloc maxDepth maxDepth 0 [startUrl]
    ⟨[], [], []⟩

/-! ## Dedup invariant under concurrent scheduling (C3)

Within one depth level all `process_url` coroutines run concurrently, but
the guard sequence of lines 116–129 —

```python
if not self.is_same_domain(url, f"https://{base_domain}"): return []
if url in self.visited_urls: return []
self.visited_urls.add(url)
...
content = await self.request_handler.get_content(url)
```

— contains no `await` before `get_content`, so under asyncio's cooperative
single-threaded scheduling the check-and-mark prefix of each task is
atomic; only the task that transitions `url` from unvisited to visited ever
dispatches it.  The transition system below has one atomic step per
`process_url` guard outcome, and lets tasks be spawned for arbitrary URLs
at any time, which over-approximates every frontier the crawler can build
at any depth. -/

/-- Task-level crawler state: the visited set, the trace of URLs dispatched
to `get_content`, and the pool of pending `process_url` tasks. -/
structure TaskState where
  visited : List String
  fetched : List String
  pending : List String
deriving DecidableEq

/-- Atomic steps of the crawl, parameterised by the domain predicate
`sameDomain url = is_same_domain(url, "https://" + base_domain)`. -/
inductive CrawlStep (sameDomain : String → Bool) : TaskState → TaskState → Prop
  /-- A `process_url` task for `u` is created (frontier scheduling,
  `crawl_depth_level` line 171). -/
  | spawn (s : TaskState) (u : String) :
      CrawlStep sameDomain s { s with pending := s.pending ++ [u] }
  /-- Task for `u` runs its prefix and returns at the domain guard
  (line 116). -/
  | runSkipDomain (s : TaskState) (u : String) :
      u ∈ s.pending → sameDomain u = false →
      CrawlStep sameDomain s { s with pending := s.pending.erase u }
  /-- Task for `u` runs its prefix and returns at the visited guard
  (line 120). -/
  | runSkipVisited (s : TaskState) (u : String) :
      u ∈ s.pending → sameDomain u = true → u ∈ s.visited →
      CrawlStep sameDomain s { s with pending := s.pending.erase u }
  /-- Task for `u` passes both guards: atomically marks `u` visited
  (line 124) and dispatches it to `get_content` (line 129). -/
  | runFetch (s : TaskState) (u : String) :
      u ∈ s.pending → sameDomain u = true → u ∉ s.visited →
      CrawlStep sameDomain s
        { s with pending := s.pending.erase u,
                 visited := s.visited ++ [u],
                 fetched := s.fetched ++ [u] }

/-- Crawl executions: reflexive-transitive closure of the atomic steps from
the initial state (empty visited set, no dispatches, empty pool). -/
def CrawlReaches (sameDomain : String → Bool) : TaskState → TaskState → Prop :=
  Relation.ReflTransGen (CrawlStep sameDomain)

/-- The dedup invariant: every dispatched URL is visited, and no URL is
dispatched twice. -/
def DedupInv (s : TaskState) : Prop :=
  s.fetched.Nodup ∧ ∀ u ∈ s.fetched, u ∈ s.visited

lemma DedupInv_step (sameDomain : String → Bool) (s t : TaskState)
    (hstep : CrawlStep sameDomain s t) (hinv : DedupInv s) : DedupInv t := by
  obtain ⟨hnd, hsub⟩ := hinv
  cases hstep with
  | spawn u => exact ⟨hnd, hsub⟩
  | runSkipDomain u hmem hdom => exact ⟨hnd, hsub⟩
  | runSkipVisited u hmem hdom hvis => exact ⟨hnd, hsub⟩
  | runFetch u hmem hdom hvis =>
    constructor
    · rw [List.nodup_append]
      refine ⟨hnd, List.nodup_singleton u, ?_⟩
      intro a ha hb
      rw [List.mem_singleton] at hb
      subst hb
      exact hvis (hsub a ha)
    · intro a ha
      rw [List.mem_append] at ha ⊢
      rcases ha with ha | ha
      · exact Or.inl (hsub a ha)
      · exact Or.inr ha

lemma DedupInv_reaches (sameDomain : String → Bool) (s t : TaskState)
    (h : CrawlReaches sameDomain s t) (hinv : DedupInv s) : DedupInv t := by
  induction h with
  | refl => exact hinv
  | tail _ hstep ih => exact DedupInv_step sameDomain _ _ hstep ih

/-! ## Throttled fetcher timing (`AsyncWebRequestHandler.get_content`,
lines 50–59)

```python
async with self.semaphore:                      # at most C tasks inside
    current_time = time.time()
    time_since_last = current_time - self.last_request_time
    if time_since_last < self.delay:
        await asyncio.sleep(self.delay - time_since_last)
    self.last_request_time = time.time()
    async with self.session.get(url, ...) as response:   # the dispatch
```

Timed transition system (time in abstract ticks, `D = self.delay`,
`C` = semaphore bound):

* a task inside the semaphore either sees `last + D ≤ now` and atomically
  updates `last` and dispatches (no `await` between the read, the write and
  the dispatch), or computes the wake deadline `last + D` and suspends in
  `asyncio.sleep`;
* a sleeping task that is resumed at `now ≥` its deadline sets
  `last := now` and dispatches — the code does **not** re-check the delay
  after the sleep;
* the semaphore admits a task only while fewer than `C` are inside; the
  model releases the slot at dispatch time, which only enlarges the set of
  schedules and does not affect dispatch spacing since `last` is already
  updated at dispatch. -/

/-- Rate-limiter state: current time, `self.last_request_time`, the trace of
dispatch times, the number of in-semaphore tasks before their delay check,
and the wake deadlines of sleeping tasks. -/
structure RLState where
  now : Nat
  last : Nat
  dispatches : List Nat
  ready : Nat
  sleeping : List Nat
deriving DecidableEq

/-- Atomic steps of `get_content`'s throttling section with concurrency
bound `C` and delay `D`. -/
inductive RLStep (C D : Nat) : RLState → RLState → Prop
  /-- Time advances. -/
  | advance (s : RLState) (k : Nat) :
      RLStep C D s { s with now := s.now + k }
  /-- A task acquires a semaphore slot (line 52). -/
  | enter (s : RLState) :
      s.ready + s.sleeping.length < C →
      RLStep C D s { s with ready := s.ready + 1 }
  /-- Delay already elapsed (`time_since_last >= delay`): the task updates
  `last_request_time` and dispatches in one atomic run (lines 55–71). -/
  | dispatchNow (s : RLState) :
      1 ≤ s.ready → s.last + D ≤ s.now →
      RLStep C D s { s with ready := s.ready - 1, last := s.now,
                            dispatches := s.dispatches ++ [s.now] }
  /-- Delay not elapsed: the task computes its wake deadline
  `last_request_time + delay` and suspends in `asyncio.sleep`
  (lines 57–58). -/
  | goSleep (s : RLState) :
      1 ≤ s.ready → s.now < s.last + D →
      RLStep C D s { s with ready := s.ready - 1,
                            sleeping := s.sleeping ++ [s.last + D] }
  /-- A sleeping task whose deadline has passed resumes, updates
  `last_request_time` to the current time and dispatches (lines 59–71);
  the delay is not re-checked. -/
  | wake (s : RLState) (w : Nat) :
      w ∈ s.sleeping → w ≤ s.now →
      RLStep C D s { s with sleeping := s.sleeping.erase w, last := s.now,
                            dispatches := s.dispatches ++ [s.now] }

/-- Executions of the throttling section from a given start state. -/
def RLReaches (C D : Nat) : RLState → RLState → Prop :=
  Relation.ReflTransGen (RLStep C D)

/-- Handler start state: `last_request_time = 0` (line 16), no tasks, no
dispatches, clock at `t0`. -/
def rlInit (t0 : Nat) : RLState := ⟨t0, 0, [], 0, []⟩

/-- Successive dispatches separated by at least `D`. -/
def Spaced (D : Nat) (l : List Nat) : Prop :=
  List.Chain' (fun a b => a + D ≤ b) l

/-- Invariant giving the rate-spacing guarantee when `C = 1`: dispatches are
spaced, `last` is the latest dispatch time, at most one task occupies the
semaphore, and a sleeping task's deadline is `last + D`. -/
def RLInv (D : Nat) (s : RLState) : Prop :=
  Spaced D s.dispatches ∧
  s.last = (s.dispatches.getLast?).getD 0 ∧
  s.ready + s.sleeping.length ≤ 1 ∧
  ∀ w ∈ s.sleeping, w = s.last + D

lemma spaced_append (D : Nat) (l : List Nat) (x : Nat)
    (hl : Spaced D l) (hx : (l.getLast?).getD 0 + D ≤ x) : Spaced D (l ++ [x]) := by
  unfold Spaced at *
  rw [List.chain'_append]
  refine ⟨hl, List.chain'_singleton x, ?_⟩
  intro a ha b hb
  rw [List.head?_cons, Option.mem_def, Option.some.injEq] at hb
  subst hb
  rw [Option.mem_def] at ha
  have : (l.getLast?).getD 0 = a := by rw [ha]; rfl
  rw [← this]
  exact hx

lemma RLInv_step (D : Nat) (s t : RLState)
    (hstep : RLStep 1 D s t) (hinv : RLInv D s) : RLInv D t := by
  obtain ⟨hsp, hlast, hocc, hslp⟩ := hinv
  cases hstep with
  | advance k => exact ⟨hsp, hlast, hocc, hslp⟩
  | enter hlt =>
    refine ⟨hsp, hlast, ?_, hslp⟩
    simp only [RLState.ready]
    omega
  | dispatchNow hr hd =>
    have hslpnil : s.sleeping = [] := by
      have : s.sleeping.length = 0 := by omega
      exact List.length_eq_zero.mp this
    refine ⟨spaced_append D s.dispatches s.now hsp (by rw [← hlast]; exact hd), ?_, ?_, ?_⟩
    · simp
    · simp only [hslpnil, List.length_nil]
      omega
    · intro w hw
      rw [hslpnil] at hw
      simp at hw
  | goSleep hr hd =>
    have hslpnil : s.sleeping = [] := by
      have : s.sleeping.length = 0 := by omega
      exact List.length_eq_zero.mp this
    refine ⟨hsp, hlast, ?_, ?_⟩
    · simp only [hslpnil, List.nil_append, List.length_cons, List.length_nil]
      omega
    · intro w hw
      rw [hslpnil] at hw
      simp only [List.nil_append, List.mem_singleton] at hw
      exact hw
  | wake w hw hnow =>
    have hlen : s.sleeping.length = 1 := by
      have h1 : 0 < s.sleeping.length := List.length_pos_of_mem hw
      omega
    obtain ⟨w', hw'⟩ := List.length_eq_one.mp hlen
    rw [hw'] at hw
    rw [List.mem_singleton] at hw
    subst hw
    have hwd : w = s.last + D := hslp w (by rw [hw']; exact List.mem_singleton.mpr rfl)
    refine ⟨spaced_append D s.dispatches s.now hsp (by rw [← hlast, ← hwd]; exact hnow),
      by simp, ?_, ?_⟩
    · rw [hw']
      simp only [List.erase_cons_head, List.length_nil]
      omega
    · intro x hx
      rw [hw', List.erase_cons_head] at hx
      simp at hx

lemma RLInv_reaches (D : Nat) (s t : RLState)
    (h : RLReaches 1 D s t) (hinv : RLInv D s) : RLInv D t := by
  induction h with
  | refl => exact hinv
  | tail _ hstep ih => exact RLInv_step D _ _ hstep ih

/-! ## Parsed HTML documents

The HTML parse/query collaborator (BeautifulSoup with `html.parser`) is an
external interface: `parse(html) -> DOM`.  We embed the *parsed* document
as a flat list of nodes in document (preorder) order, each carrying its
tree path; the parent of the node at path `p` is the node at `p.dropLast`,
which is how BeautifulSoup's parent pointers navigate.  The
`BeautifulSoup` object itself is the node at path `[]` with tag name
`"[document]"` and no attributes (as in bs4); `html.parser` does not wrap
fragments in `<html><body>`, so a fragment's top-level elements are the
children of `[]`. -/

/-- A node payload: an element with tag name and attributes (attribute
values kept as their serialized strings), or a text node
(`NavigableString`). -/
inductive NodeKind where
  | tag (name : String) (attrs : List (String × String))
  | str (s : String)
deriving DecidableEq

/-- A document node: its path in the tree plus its payload. -/
structure DNode where
  path : List Nat
  kind : NodeKind
deriving DecidableEq

/-- A parsed document: nodes in document order. -/
abbrev Doc := List DNode

/-- The payload at a path. -/
def nodeAt (doc : Doc) (p : List Nat) : Option NodeKind :=
  (doc.find? (fun n => n.path = p)).map (fun n => n.kind)

/-- Tag name at a path (`""` when not an element). -/
def nameAt (doc : Doc) (p : List Nat) : String :=
  match nodeAt doc p with
  | some (NodeKind.tag name _) => name
  | _ => ""

/-- Attributes at a path (`[]` when not an element). -/
def attrsAt (doc : Doc) (p : List Nat) : List (String × String) :=
  match nodeAt doc p with
  | some (NodeKind.tag _ attrs) => attrs
  | _ => []

/-- First value of an attribute. -/
def attrVal (attrs : List (String × String)) (name : String) : Option String :=
  (attrs.find? (fun kv => kv.1 = name)).map (fun kv => kv.2)

/-- Python `tag.get(name, "")`. -/
def getAttrD (doc : Doc) (p : List Nat) (name : String) : String :=
  (attrVal (attrsAt doc p) name).getD ""

/-- `pre` is a leading segment of `q` (ancestor-or-self in path terms). -/
def leadsToPath : List Nat → List Nat → Bool
  | [], _ => true
  | _ :: _, [] => false
  | a :: as, b :: bs => a = b && leadsToPath as bs

/-- `q` lies strictly below `p` in the tree. -/
def strictBelow (q p : List Nat) : Bool := leadsToPath p q && q ≠ p

/-- Paths of all elements of the document except the `[document]` root, in
document order — the search space of `soup.select` and `soup.find_all`. -/
def tagPaths (doc : Doc) : List (List Nat) :=
  (doc.filter (fun n => match n.kind with
    | NodeKind.tag _ _ => n.path ≠ []
    | NodeKind.str _ => false)).map (fun n => n.path)

/-- Children of the node at `p`, in document order. -/
def childPaths (doc : Doc) (p : List Nat) : List (List Nat) :=
  (doc.filter (fun n => n.path.length = p.length + 1 && leadsToPath p n.path)).map
    (fun n => n.path)

/-- All descendant text-node strings below `p`, in document order. -/
def subtreeTexts (doc : Doc) (p : List Nat) : List String :=
  (doc.filter (fun n => strictBelow n.path p)).filterMap (fun n =>
    match n.kind with
    | NodeKind.str s => some s
    | NodeKind.tag _ _ => none)

/-- bs4 `element.text` / `get_text()`: concatenation of all descendant
strings. -/
def elementText (doc : Doc) (p : List Nat) : String :=
  String.join (subtreeTexts doc p)

/-- bs4 `element.stripped_strings`: descendant strings stripped, the
whitespace-only ones skipped. -/
def strippedStringsAt (doc : Doc) (p : List Nat) : List String :=
  ((subtreeTexts doc p).map pyStrip).filter (fun s => s ≠ "")

/-- bs4 `tag.string`: the single text child, recursing through a single
element child; `None` whenever the tag has zero or several children.
Fuel-based recursion on the tree depth; `doc.length` always suffices. -/
def tagStringAux (doc : Doc) : Nat → List Nat → Option String
  | 0, _ => none
  | fuel + 1, p =>
    match childPaths doc p with
    | [q] =>
      match nodeAt doc q with
      | some (NodeKind.str s) => some s
      | some (NodeKind.tag _ _) => tagStringAux doc fuel q
      | none => none
    | _ => none

/-- bs4 `tag.string` at a path. -/
def tagStringAt (doc : Doc) (p : List Nat) : Option String :=
  tagStringAux doc doc.length p

/-- The subtree rooted at `p` as a stand-alone document (paths relative to
`p`).  Two bs4 tags compare equal (`Tag.__eq__`) iff they have the same
name, attributes and recursive contents, which is equality of these
relative subtrees. -/
def subtreeRel (doc : Doc) (p : List Nat) : Doc :=
  (doc.filter (fun n => leadsToPath p n.path)).map
    (fun n => { n with path := n.path.drop p.length })

/-- Paths of the strict descendant elements of `p` — what
`container.find_all(True)` returns. -/
def strictDescTagPaths (doc : Doc) (p : List Nat) : List (List Nat) :=
  (tagPaths doc).filter (fun q => strictBelow q p)

/-- Serialized attributes, as in `str(tag)`. -/
def renderAttrs (attrs : List (String × String)) : String :=
  String.join (attrs.map (fun kv => " " ++ kv.1 ++ "=\x22" ++ kv.2 ++ "\x22"))

/-- `str(element)`: serialize the subtree at `p` (the `[document]` node
contributes no markup of its own).  Fuel-based recursion on depth. -/
def renderAux (doc : Doc) : Nat → List Nat → String
  | 0, _ => ""
  | fuel + 1, p =>
    match nodeAt doc p with
    | some (NodeKind.str s) => s
    | some (NodeKind.tag name attrs) =>
      let inner := String.join ((childPaths doc p).map (fun q => renderAux doc fuel q))
      if name = "[document]" then inner
      else "<" ++ name ++ renderAttrs attrs ++ ">" ++ inner ++ "</" ++ name ++ ">"
    | none => ""

/-- `str(element)` at a path. -/
def renderAt (doc : Doc) (p : List Nat) : String := renderAux doc doc.length p

/-- Add a path to an accumulated set (first-insertion order).  Python
accumulates candidates in a `set()`, whose iteration order is unspecified;
the theorems stated below are insensitive to that order (the containers
they inspect have pairwise distinct sort keys). -/
def pathSetAdd (l : List (List Nat)) (p : List Nat) : List (List Nat) :=
  if p ∈ l then l else l ++ [p]

/-- Words of a multi-valued attribute: bs4 gives `tag.get("class")` as the
whitespace-split word list; `" ".join(...)` restores single spacing. -/
def wordsAux : List Char → List Char → List (List Char)
  | [], acc => if acc = [] then [] else [acc.reverse]
  | c :: cs, acc =>
    if isSpaceChar c then
      (if acc = [] then wordsAux cs [] else acc.reverse :: wordsAux cs [])
    else wordsAux cs (c :: acc)

/-- Join strings with a separator. -/
def joinSep (sep : String) : List String → String
  | [] => ""
  | [x] => x
  | x :: xs => x ++ sep ++ joinSep sep xs

/-- `" ".join(tag.get("class", default))`: whitespace-split then
space-join. -/
def joinWords (s : String) : String :=
  joinSep " " ((wordsAux (chars s) []).map ofChars)

/-- CSS `[attr*="val"]` over the document: elements whose attribute value
contains `val` as a substring. -/
def selAttrContains (doc : Doc) (attr val : String) : List (List Nat) :=
  (tagPaths doc).filter (fun p =>
    match attrVal (attrsAt doc p) attr with
    | some v => strContains v val
    | none => false)

/-- CSS `[attr="val"]` over the document. -/
def selAttrEq (doc : Doc) (attr val : String) : List (List Nat) :=
  (tagPaths doc).filter (fun p =>
    match attrVal (attrsAt doc p) attr with
    | some v => v = val
    | none => false)

/-- Proper ancestors of `p`, outermost (the `[document]` root) first. -/
def ancestorsOf (p : List Nat) : List (List Nat) :=
  (List.range p.length).map (fun i => p.take i)

/-- CSS `nav ul li a`: anchors with an `li` ancestor having a `ul` ancestor
having a `nav` ancestor. -/
def selNavUlLiA (doc : Doc) : List (List Nat) :=
  (tagPaths doc).filter (fun p =>
    nameAt doc p = "a" &&
    (ancestorsOf p).any (fun q1 => nameAt doc q1 = "li" &&
      (ancestorsOf q1).any (fun q2 => nameAt doc q2 = "ul" &&
        (ancestorsOf q2).any (fun q3 => nameAt doc q3 = "nav"))))

/-- CSS `t:-soup-contains("pat")`: elements named `t` whose text contains
`pat`. -/
def selTagTextContains (doc : Doc) (t pat : String) : List (List Nat) :=
  (tagPaths doc).filter (fun p => nameAt doc p = t && strContains (elementText doc p) pat)

/-- Paths of `soup.find_all(["a", "button"])`. -/
def interactivePaths (doc : Doc) : List (List Nat) :=
  (tagPaths doc).filter (fun p => nameAt doc p = "a" || nameAt doc p = "button")

/-! ## `find_pagination_candidates` (`utils/bs4.py`, lines 194–343) -/

/-- The `next_prev_texts` regex alternatives (plain alternation, `re.I`):
`search` succeeds iff the lowercased text contains one of the words. -/
def next_prev_words : List String :=
  ["next", "previous", "prev", "back", "more", "older", "newer",
   "continuar", "siguiente", "anterior"]

/-- `next_prev_texts.search(s)`. -/
def nextPrevSearch (s : String) : Bool :=
  next_prev_words.any (fun w => strContains (pyLower s) w)

/-- `next_prev_symbols` (line 231). -/
def next_prev_symbols : List String := ["»", "›", ">", "→", "«", "‹", "<", "←"]

/-- Heuristics 1, 3 and 4: the selector loop over
`keyword_selectors + structural_selectors + load_more_selectors`
(lines 216–257), results concatenated in selector order, each selector's
matches in document order. -/
def pagSelectorResults (doc : Doc) : List (List Nat) :=
  selAttrContains doc "class" "pagination" ++ selAttrContains doc "id" "pagination" ++
  selAttrContains doc "class" "pager" ++ selAttrContains doc "id" "pager" ++
  selAttrContains doc "class" "pages" ++ selAttrContains doc "id" "pages" ++
  selAttrContains doc "aria-label" "pagination" ++ selAttrEq doc "role" "navigation" ++
  selNavUlLiA doc ++
  selTagTextContains doc "button" "Load more" ++
  selTagTextContains doc "button" "Show more" ++
  selTagTextContains doc "a" "Load more" ++
  selTagTextContains doc "a" "Show more"

/-- Heuristic 2: anchors/buttons matched by text, aria-label or digit-only
content (lines 260–273; the `elif` chain is a disjunction since every
branch adds the tag). -/
def pagTextCandidates (doc : Doc) : List (List Nat) :=
  (interactivePaths doc).filter (fun p =>
    let s := (tagStringAt doc p).getD ""
    let aria := getAttrD doc p "aria-label"
    (s ≠ "" && (nextPrevSearch s || next_prev_symbols.contains (pyStrip s))) ||
    (aria ≠ "" && nextPrevSearch aria) ||
    (s ≠ "" && pyIsDigit (pyStrip s)))

/-- `candidate_elements` (a Python set; first-insertion order here). -/
def pagCandidateElements (doc : Doc) : List (List Nat) :=
  (pagSelectorResults doc ++ pagTextCandidates doc).foldl pathSetAdd []

/-- The ancestor test of the container walk (lines 287–301): class or id
containing "pagination"/"pager", or `role="navigation"`. -/
def pagContainerHit (doc : Doc) (p : List Nat) : Bool :=
  let cls := pyLower (joinWords (getAttrD doc p "class"))
  let idv := pyLower (getAttrD doc p "id")
  let role := getAttrD doc p "role"
  (strContains cls "pagination" || strContains cls "pager") ||
  (strContains idv "pagination" || strContains idv "pager") ||
  role = "navigation"

/-- The 5-level container walk (lines 281–305): stop with the current
container when there is no parent; adopt a matching parent and stop; else
move to the parent and continue. -/
def pagWalk (doc : Doc) : Nat → List Nat → List Nat
  | 0, p => p
  | k + 1, p =>
    if p = [] then p
    else
      let par := p.dropLast
      if pagContainerHit doc par then par else pagWalk doc k par

/-- `candidate_containers` (line 307). -/
def pagCandidateContainers (doc : Doc) : List (List Nat) :=
  (pagCandidateElements doc).foldl (fun acc p => pathSetAdd acc (pagWalk doc 5 p)) []

/-- Stable insertion for an ascending sort by key (Python `sorted(key=...)`
is stable). -/
def insertAscBy (key : List Nat → Nat) (x : List Nat) :
    List (List Nat) → List (List Nat)
  | [] => [x]
  | y :: ys => if key x ≤ key y then x :: y :: ys else y :: insertAscBy key x ys

/-- Ascending stable sort by key. -/
def sortAscBy (key : List Nat → Nat) (l : List (List Nat)) : List (List Nat) :=
  l.foldr (insertAscBy key) []

/-- Stable insertion for a descending sort by key
(`sorted(key=..., reverse=True)` keeps the original order of equals). -/
def insertDescBy (key : List Nat → Nat) (x : List Nat) :
    List (List Nat) → List (List Nat)
  | [] => [x]
  | y :: ys => if key y ≤ key x then x :: y :: ys else y :: insertDescBy key x ys

/-- Descending stable sort by key. -/
def sortDescBy (key : List Nat → Nat) (l : List (List Nat)) : List (List Nat) :=
  l.foldr (insertDescBy key) []

/-- `container in existing_container.find_all(True)`: bs4 list membership
uses the structural `Tag.__eq__`, so this asks whether the candidate's
subtree equals some strict-descendant subtree of an accepted container. -/
def isRedundantIn (doc : Doc) (c kept : List Nat) : Bool :=
  (strictDescTagPaths doc kept).any (fun q => subtreeRel doc q = subtreeRel doc c)

/-- `final_containers` (lines 312–322): sort ascending by `len(str(x))`,
then drop a container that is a descendant of an already-accepted one. -/
def pagFinalContainers (doc : Doc) : List (List Nat) :=
  (sortAscBy (fun p => (renderAt doc p).length) (pagCandidateContainers doc)).foldl
    (fun acc c => if acc.any (fun kept => isRedundantIn doc c kept) then acc
                  else acc ++ [c]) []

/-- `preserve_text_tags` of the pagination snippet pass (line 328). -/
def pag_preserve_text_tags : List String := ["a", "button", "span", "option", "label"]

/-- The snippet text-blanking pass (lines 334–339): in the re-parsed copy of
the container, replace each direct string child of a non-preserved tag that
strips non-empty by a single space. -/
def blankSubtree (preserve : List String) (sub : Doc) : Doc :=
  sub.map (fun n =>
    match n.kind with
    | NodeKind.str s =>
      if pyStrip s ≠ "" && !(preserve.contains (nameAt sub n.path.dropLast)) then
        { n with kind := NodeKind.str " " }
      else n
    | NodeKind.tag _ _ => n)

/-- A snippet: serialize the blanked copy of the container's subtree.  (The
source serializes with `prettify()`, which only inserts indentation
whitespace; the theorems below inspect only the number of snippets, never
their text.) -/
def snippetAt (doc : Doc) (preserve : List String) (p : List Nat) : String :=
  let sub := blankSubtree preserve (subtreeRel doc p)
  renderAux sub sub.length []

/-- `find_pagination_candidates(html, max_candidates)` on a parsed
document. -/
def find_pagination_candidates (doc : Doc) (max_candidates : Nat) : List String :=
  ((pagFinalContainers doc).take max_candidates).map
    (snippetAt doc pag_preserve_text_tags)

/-! ## `find_cookie_consent_candidates` (`utils/bs4.py`, lines 346–500) -/

/-- The `accept_texts` pattern is the *raw* string
`r"\\b(accept|...)\\b"`, i.e. the regex source holds a double backslash:
it matches a literal `\` followed by `b`/`B` around the keyword, not a word
boundary.  With `re.I`, `search` succeeds iff the lowercased text contains
`"\b" ++ keyword ++ "\b"` (backslash, letter b) for some keyword. -/
def accept_words : List String :=
  ["accept", "agree", "allow", "ok", "got it", "i understand",
   "continue to site", "ja", "akzeptieren", "zustimmen", "einverstanden",
   "acepto", "aceptar"]

/-- `accept_texts.search(s)` (lines 395–398). -/
def acceptSearch (s : String) : Bool :=
  accept_words.any (fun w => strContains (pyLower s) ("\\b" ++ w ++ "\\b"))

/-- Heuristics 1 and 3: the selector loop over
`keyword_selectors + role_selectors` (lines 370–419). -/
def cookieSelectorResults (doc : Doc) : List (List Nat) :=
  selAttrContains doc "class" "cookie" ++ selAttrContains doc "id" "cookie" ++
  selAttrContains doc "class" "consent" ++ selAttrContains doc "id" "consent" ++
  selAttrContains doc "class" "banner" ++ selAttrContains doc "id" "banner" ++
  selAttrContains doc "class" "cmp" ++ selAttrContains doc "id" "cmp" ++
  selAttrContains doc "class" "dialog" ++ selAttrContains doc "id" "dialog" ++
  selAttrContains doc "aria-label" "cookie" ++ selAttrContains doc "aria-label" "consent" ++
  selAttrContains doc "aria-labelledby" "cookie" ++ selAttrContains doc "aria-describedby" "cookie" ++
  selAttrContains doc "aria-labelledby" "consent" ++ selAttrContains doc "aria-describedby" "consent" ++
  selAttrContains doc "id" "onetrust" ++ selAttrContains doc "class" "onetrust" ++
  selAttrContains doc "id" "cookiebot" ++ selAttrContains doc "class" "cookiebot" ++
  selAttrEq doc "role" "dialog" ++ selAttrEq doc "role" "alertdialog"

/-- Heuristic 2: anchors/buttons whose string or aria-label matches
`accept_texts` (lines 422–429). -/
def cookieTextCandidates (doc : Doc) : List (List Nat) :=
  (interactivePaths doc).filter (fun p =>
    let s := (tagStringAt doc p).getD ""
    let aria := getAttrD doc p "aria-label"
    (s ≠ "" && acceptSearch s) || (aria ≠ "" && acceptSearch aria))

/-- `candidate_elements` of the cookie pass. -/
def cookieCandidateElements (doc : Doc) : List (List Nat) :=
  (cookieSelectorResults doc ++ cookieTextCandidates doc).foldl pathSetAdd []

/-- The ancestor test of the cookie container walk (lines 441–456). -/
def cookieContainerHit (doc : Doc) (p : List Nat) : Bool :=
  let cls := pyLower (joinWords (getAttrD doc p "class"))
  let idv := pyLower (getAttrD doc p "id")
  let role := pyLower (getAttrD doc p "role")
  (["cookie", "consent", "banner", "dialog", "cmp"].any (fun kw => strContains cls kw)) ||
  (["cookie", "consent", "banner", "dialog", "cmp"].any (fun kw => strContains idv kw)) ||
  (role = "dialog" || role = "alertdialog")

/-- The cookie container walk (lines 434–460): unlike the pagination walk it
breaks — keeping the current container — when the parent is missing *or* is
`body`/`html`. -/
def cookieWalk (doc : Doc) : Nat → List Nat → List Nat
  | 0, p => p
  | k + 1, p =>
    if p = [] then p
    else
      let par := p.dropLast
      if nameAt doc par = "body" || nameAt doc par = "html" then p
      else if cookieContainerHit doc par then par
      else cookieWalk doc k par

/-- `candidate_containers` of the cookie pass (line 462). -/
def cookieCandidateContainers (doc : Doc) : List (List Nat) :=
  (cookieCandidateElements doc).foldl (fun acc p => pathSetAdd acc (cookieWalk doc 5 p)) []

/-- `final_containers` of the cookie pass (lines 466–480): sort *descending*
by `len(str(x))` (parents first), then drop descendants of accepted
containers. -/
def cookieFinalContainers (doc : Doc) : List (List Nat) :=
  (sortDescBy (fun p => (renderAt doc p).length) (cookieCandidateContainers doc)).foldl
    (fun acc c => if acc.any (fun kept => isRedundantIn doc c kept) then acc
                  else acc ++ [c]) []

/-- `preserve_text_tags` of the cookie snippet pass (line 485). -/
def cookie_preserve_text_tags : List String :=
  ["a", "button", "span", "p", "h1", "h2", "h3", "label"]

/-- `find_cookie_consent_candidates(html, max_candidates)` on a parsed
document. -/
def find_cookie_consent_candidates (doc : Doc) (max_candidates : Nat) : List String :=
  ((cookieFinalContainers doc).take max_candidates).map
    (snippetAt doc cookie_preserve_text_tags)

/-! ## `extract_links_with_text` (`utils/bs4.py`, lines 503–567)

The per-anchor normalization is
`normalize_url(url=href, base_url=base_url)`, whose relative resolution
goes through `urljoin` (the external `urllib` collaborator).  The model is
parametric in that resolved normalization map
`norm href = normalize_url(href, base_url)`; the properties proved about
the extraction hold for every such map, hence for the actual one. -/

/-- A record returned by `extract_links_with_text`. -/
structure ExtractedLink where
  url : String
  associated_texts : List String
  found_on_url : String
deriving DecidableEq

/-- `ignored_patterns` (lines 524–534). -/
def ignored_patterns : List String :=
  ["javascript:", "mailto:", "tel:",
   "whatsapp.com", "twitter.com", "facebook.com", "linkedin.com", "instagram.com"]

/-- Add a string to a set-as-list (first-insertion order). -/
def setAddStr (l : List String) (s : String) : List String :=
  if s ∈ l then l else l ++ [s]

/-- The associated-texts set of one anchor (lines 543–554): the
space-joined stripped descendant strings, plus the stripped `title`
attribute, `[""]` when both are absent. -/
def anchorTexts (doc : Doc) (p : List Nat) : List String :=
  let text := joinSep " "
    (((strippedStringsAt doc p).map pyStrip).filter (fun s => s ≠ ""))
  let title := pyStrip (getAttrD doc p "title")
  let ts0 := if text ≠ "" then setAddStr [] text else []
  let ts1 := if title ≠ "" then setAddStr ts0 title else ts0
  if ts1 = [] then [""] else ts1

/-- One iteration of the anchor loop (lines 536–555): skip anchors without
`href`, with an empty `href` or one containing an ignored pattern;
otherwise pair the normalized link with the anchor's texts. -/
def anchorEntry (norm : String → String) (doc : Doc) (p : List Nat) :
    Option (String × List String) :=
  match attrVal (attrsAt doc p) "href" with
  | none => none
  | some href =>
    if href = "" || ignored_patterns.any (fun pat => strContains href pat) then none
    else some (norm href, anchorTexts doc p)

/-- `links_and_text` (line 555): the anchor loop over `soup.find_all("a")`. -/
def anchorPairs (norm : String → String) (doc : Doc) : List (String × List String) :=
  ((tagPaths doc).filter (fun p => nameAt doc p = "a")).filterMap (anchorEntry norm doc)

/-- `link_to_texts[link].update(texts)` on a `defaultdict(set)` keyed in
insertion order: union the texts into the entry of `k`, appending a new
entry when `k` is absent. -/
def unionInsert : List (String × List String) → String → List String →
    List (String × List String)
  | [], k, ts => [(k, ts.foldl setAddStr [])]
  | (k', ts') :: rest, k, ts =>
    if k' = k then (k', ts.foldl setAddStr ts') :: rest
    else (k', ts') :: unionInsert rest k ts

/-- The grouping loop (lines 557–560): empty normalized links are skipped
(`if link:`). -/
def groupPairs (pairs : List (String × List String)) : List (String × List String) :=
  pairs.foldl (fun acc lt => if lt.1 = "" then acc else unionInsert acc lt.1 lt.2) []

/-- `extract_links_with_text(html, base_url)` on a parsed document with the
resolved normalization map `norm`. -/
def extract_links_with_text (norm : String → String) (doc : Doc) (base_url : String) :
    List ExtractedLink :=
  (groupPairs (anchorPairs norm doc)).map (fun kv => ⟨kv.1, kv.2, base_url⟩)

lemma setAddStr_ne_nil (l : List String) (s : String) : setAddStr l s ≠ [] := by
  unfold setAddStr
  split
  · rename_i hmem
    exact List.ne_nil_of_mem hmem
  · simp

lemma foldl_setAddStr_ne_nil (ts : List String) (init : List String)
    (h : init ≠ [] ∨ ts ≠ []) : ts.foldl setAddStr init ≠ [] := by
  induction ts generalizing init with
  | nil =>
    rcases h with h | h
    · simpa using h
    · simp at h
  | cons t ts ih =>
    rw [List.foldl_cons]
    exact ih (setAddStr init t) (Or.inl (setAddStr_ne_nil init t))

/-- Keys of `unionInsert`: unchanged when `k` is present, `++ [k]` when
absent. -/
lemma unionInsert_keys (acc : List (String × List String)) (k : String)
    (ts : List String) :
    (unionInsert acc k ts).map Prod.fst =
      (if k ∈ acc.map Prod.fst then acc.map Prod.fst else acc.map Prod.fst ++ [k]) := by
  induction acc with
  | nil => simp [unionInsert]
  | cons hd tl ih =>
    obtain ⟨k', ts'⟩ := hd
    by_cases hk : k' = k
    · subst hk
      simp [unionInsert]
    · simp only [unionInsert, if_neg hk, List.map_cons]
      rw [ih]
      by_cases hmem : k ∈ tl.map Prod.fst
      · rw [if_pos hmem, if_pos (by simp [hmem])]
      · rw [if_neg hmem, if_neg (by simp [hmem, Ne.symm hk])]
        simp

lemma unionInsert_entries (k : String) (ts : List String) (hk : k ≠ "")
    (hts : ts ≠ []) (acc : List (String × List String)) :
    (∀ kv ∈ acc, kv.1 ≠ "" ∧ kv.2 ≠ []) →
    ∀ kv ∈ unionInsert acc k ts, kv.1 ≠ "" ∧ kv.2 ≠ [] := by
  induction acc with
  | nil =>
    intro _ kv hkv
    simp only [unionInsert, List.mem_singleton] at hkv
    subst hkv
    exact ⟨hk, foldl_setAddStr_ne_nil ts [] (Or.inr hts)⟩
  | cons hd tl ih =>
    obtain ⟨k', ts'⟩ := hd
    intro hgood kv hkv
    by_cases hkk : k' = k
    · subst hkk
      rw [unionInsert, if_pos rfl] at hkv
      rw [List.mem_cons] at hkv
      rcases hkv with hkv | hkv
      · subst hkv
        have h0 := hgood (k', ts') (by simp)
        exact ⟨h0.1, foldl_setAddStr_ne_nil ts ts' (Or.inl h0.2)⟩
      · exact hgood kv (List.mem_cons_of_mem _ hkv)
    · rw [unionInsert, if_neg hkk] at hkv
      rw [List.mem_cons] at hkv
      rcases hkv with hkv | hkv
      · subst hkv
        exact hgood (k', ts') (by simp)
      · exact ih (fun q h => hgood q (List.mem_cons_of_mem _ h)) kv hkv

/-- The grouping fold keeps the key list duplicate-free and every entry with
a non-empty key and non-empty texts, provided every incoming pair has
non-empty texts. -/
lemma groupPairs_good (pairs : List (String × List String))
    (hts : ∀ pr ∈ pairs, pr.2 ≠ []) :
    ((groupPairs pairs).map Prod.fst).Nodup ∧
    ∀ kv ∈ groupPairs pairs, kv.1 ≠ "" ∧ kv.2 ≠ [] := by
  unfold groupPairs
  suffices h : ∀ acc : List (String × List String),
      (acc.map Prod.fst).Nodup → (∀ kv ∈ acc, kv.1 ≠ "" ∧ kv.2 ≠ []) →
      ((pairs.foldl (fun acc lt => if lt.1 = "" then acc else unionInsert acc lt.1 lt.2)
          acc).map Prod.fst).Nodup ∧
      ∀ kv ∈ pairs.foldl (fun acc lt => if lt.1 = "" then acc else unionInsert acc lt.1 lt.2)
          acc, kv.1 ≠ "" ∧ kv.2 ≠ [] by
    exact h [] (by simp) (by simp)
  induction pairs with
  | nil =>
    intro acc h1 h2
    exact ⟨h1, h2⟩
  | cons pr rest ih =>
    intro acc h1 h2
    rw [List.foldl_cons]
    by_cases hpr : pr.1 = ""
    · rw [if_pos hpr]
      exact ih (fun q hq => hts q (List.mem_cons_of_mem _ hq)) acc h1 h2
    · rw [if_neg hpr]
      refine ih (fun q hq => hts q (List.mem_cons_of_mem _ hq)) _ ?_ ?_
      · rw [unionInsert_keys]
        split
        · exact h1
        · rename_i hmem
          rw [List.nodup_append]
          exact ⟨h1, List.nodup_singleton _, by
            intro a ha hb
            rw [List.mem_singleton] at hb
            subst hb
            exact hmem ha⟩
      · exact unionInsert_entries pr.1 pr.2 hpr (hts pr (by simp)) acc h2

/-- The associated-texts set of an anchor is never empty (`[""]` is
inserted when both text and title are absent). -/
lemma ite_nil_or_self (l : List String) : (if l = [] then [""] else l) ≠ [] := by
  split
  · simp
  · assumption

lemma anchorTexts_ne_nil (doc : Doc) (p : List Nat) : anchorTexts doc p ≠ [] := by
  unfold anchorTexts
  exact ite_nil_or_self _

/-- An anchor entry that is produced carries the anchor's texts. -/
lemma anchorEntry_snd (norm : String → String) (doc : Doc) (p : List Nat)
    (pr : String × List String) (h : anchorEntry norm doc p = some pr) :
    pr.2 = anchorTexts doc p := by
  unfold anchorEntry at h
  rcases hhref : attrVal (attrsAt doc p) "href" with _ | href
  · rw [hhref] at h; exact absurd h (by simp)
  · rw [hhref] at h
    simp only at h
    by_cases hc : (decide (href = "") ||
        ignored_patterns.any fun pat => strContains href pat) = true
    · rw [if_pos hc] at h
      exact absurd h (by simp)
    · rw [if_neg hc] at h
      obtain rfl := Option.some.inj h
      rfl

/-! ## Concrete example documents -/

/-- The parse of
`<html><body><div class="pager-outer"><nav class="pagination"><a href="#">1</a><a href="#">2</a></nav></div></body></html>`
(with `html.parser`). -/
def pagExampleDoc : Doc :=
  [⟨[], NodeKind.tag "[document]" []⟩,
   ⟨[0], NodeKind.tag "html" []⟩,
   ⟨[0, 0], NodeKind.tag "body" []⟩,
   ⟨[0, 0, 0], NodeKind.tag "div" [("class", "pager-outer")]⟩,
   ⟨[0, 0, 0, 0], NodeKind.tag "nav" [("class", "pagination")]⟩,
   ⟨[0, 0, 0, 0, 0], NodeKind.tag "a" [("href", "#")]⟩,
   ⟨[0, 0, 0, 0, 0, 0], NodeKind.str "1"⟩,
   ⟨[0, 0, 0, 0, 1], NodeKind.tag "a" [("href", "#")]⟩,
   ⟨[0, 0, 0, 0, 1, 0], NodeKind.str "2"⟩]

/-- The parse of `<html><body><button>Accept all</button></body></html>`: a
page whose only consent signal is the button text — no cookie/consent
keywords in any attribute and no dialog role. -/
def cookieExampleDoc : Doc :=
  [⟨[], NodeKind.tag "[document]" []⟩,
   ⟨[0], NodeKind.tag "html" []⟩,
   ⟨[0, 0], NodeKind.tag "body" []⟩,
   ⟨[0, 0, 0], NodeKind.tag "button" []⟩,
   ⟨[0, 0, 0, 0], NodeKind.str "Accept all"⟩]

/-- The parse of
`<html><body><a href="/a">one</a><a href="/a">two</a><a href="bad">x</a></body></html>`. -/
def linksExampleDoc : Doc :=
  [⟨[], NodeKind.tag "[document]" []⟩,
   ⟨[0], NodeKind.tag "html" []⟩,
   ⟨[0, 0], NodeKind.tag "body" []⟩,
   ⟨[0, 0, 0], NodeKind.tag "a" [("href", "/a")]⟩,
   ⟨[0, 0, 0, 0], NodeKind.str "one"⟩,
   ⟨[0, 0, 1], NodeKind.tag "a" [("href", "/a")]⟩,
   ⟨[0, 0, 1, 0], NodeKind.str "two"⟩,
   ⟨[0, 0, 2], NodeKind.tag "a" [("href", "bad")]⟩,
   ⟨[0, 0, 2, 0], NodeKind.str "x"⟩]

/-- A resolved normalization map for `linksExampleDoc`: one href normalizes
to the empty string, the others resolve against `https://example.com`. -/
def linksExampleNorm : String → String :=
  fun href => if href = "bad" then "" else "https://example.com" ++ href

/-- Every pair produced by the anchor loop carries a non-empty text list. -/
lemma anchorPairs_snd_ne_nil (norm : String → String) (doc : Doc) :
    ∀ pr ∈ anchorPairs norm doc, pr.2 ≠ [] := by
  intro pr hpr
  unfold anchorPairs at hpr
  rw [List.mem_filterMap] at hpr
  obtain ⟨p, _, hp⟩ := hpr
  rw [anchorEntry_snd norm doc p pr hp]
  exact anchorTexts_ne_nil doc p

end WebScraper

namespace WebScraper

/-- C1 (code bug): `normalize_url` is not idempotent on URLs carrying a query
component.  On `u = "http://example.com/a/?q=1"` the path is `/a/`, so the
code executes `defragged_url[:-1]`, which removes the final character of the
*whole URL* — the last query character, not the path's trailing slash — and a
second application strips yet another character.  This contradicts the
code's own comment "Normalize by removing trailing slash from path". -/
theorem c1_normalize_not_idempotent :
    normalize_url "http://example.com/a/?q=1" = "http://example.com/a/?q=" ∧
    normalize_url (normalize_url "http://example.com/a/?q=1") = "http://example.com/a/?q" ∧
    normalize_url (normalize_url "http://example.com/a/?q=1") ≠
      normalize_url "http://example.com/a/?q=1" := by
  refine ⟨by decide, by decide, by decide⟩

/-- C2 (code bug): on a URL whose path ends in `/` and which carries a query,
`normalize_url` does not remove the trailing `/` from the path component:
it removes the last character of the query instead.  The spec-mandated
result (path slash dropped, query unchanged) differs from what the code
computes. -/
theorem c2_trailing_slash_clobbers_query :
    normalize_url "http://example.com/dir/?page=2" = "http://example.com/dir/?page=" ∧
    normalize_url_spec "http://example.com/dir/?page=2" = "http://example.com/dir?page=2" ∧
    normalize_url "http://example.com/dir/?page=2" ≠
      normalize_url_spec "http://example.com/dir/?page=2" := by
  refine ⟨by decide, by decide, by decide⟩

/-- C3: in every crawl execution — tasks spawned for arbitrary URLs, any
interleaving of the atomic `process_url` guard steps — each URL is
dispatched to `get_content` at most once: the dispatch trace has no
duplicates. -/
theorem c3_fetched_at_most_once (sameDomain : String → Bool) (s : TaskState)
    (h : CrawlReaches sameDomain ⟨[], [], []⟩ s) : s.fetched.Nodup :=
  (DedupInv_reaches sameDomain ⟨[], [], []⟩ s h
    ⟨List.nodup_nil, by intro u hu; simp at hu⟩).1

/-- Witness for C3: a concrete execution that spawns the same URL twice,
fetches it once and skips it the second time, ending with a
duplicate-free dispatch trace. -/
theorem c3_fetched_at_most_once_witness :
    (TaskState.mk ["https://example.com/a"] ["https://example.com/a"] []).fetched.Nodup := by
  have h0 : CrawlReaches (fun _ => true) ⟨[], [], []⟩
      ⟨["https://example.com/a"], ["https://example.com/a"], []⟩ := by
    have r1 : CrawlReaches (fun _ => true) ⟨[], [], []⟩
        ⟨[], [], ["https://example.com/a"]⟩ :=
      Relation.ReflTransGen.refl.tail (CrawlStep.spawn _ "https://example.com/a")
    have r2 : CrawlReaches (fun _ => true) ⟨[], [], []⟩
        ⟨["https://example.com/a"], ["https://example.com/a"], []⟩ :=
      r1.tail (CrawlStep.runFetch _ "https://example.com/a" (by decide) rfl (by decide))
    have r3 : CrawlReaches (fun _ => true) ⟨[], [], []⟩
        ⟨["https://example.com/a"], ["https://example.com/a"], ["https://example.com/a"]⟩ :=
      r2.tail (CrawlStep.spawn _ "https://example.com/a")
    exact r3.tail (CrawlStep.runSkipVisited _ "https://example.com/a"
      (by decide) rfl (by decide))
  exact c3_fetched_at_most_once (fun _ => true) _ h0

/-- C4: (creation) when a URL is new to the registry, its record is created
with `depth_found` equal to the depth at which it was extracted; and
(persistence) no later aggregation step — for any pages, depths, URLs and
texts — ever changes `depth_found`, and `found_on_urls` only ever grows by
appending. -/
theorem c4_depth_found_immutable (reg : Registry) (u : String) :
    (∀ p d ts, regFind reg u = none →
      regFind (addLink reg p d (u, ts)) u = some ⟨u, ts, [p], d⟩) ∧
    (∀ steps r, regFind reg u = some r →
      ∃ r', regFind (applySteps reg steps) u = some r' ∧
        r'.depth_found = r.depth_found ∧
        ∃ t, r'.found_on_urls = r.found_on_urls ++ t) := by
  constructor
  · intro p d ts h
    exact regFind_addLink_new reg p d u ts h
  · intro steps r h
    obtain ⟨r', h1, h2, _, h4⟩ := applySteps_preserves steps reg u r h
    exact ⟨r', h1, h2, h4⟩

/-- Witness for C4: a record created at depth 0 keeps `depth_found = 0` and
only appends to `found_on_urls` across a rediscovery at depth 3. -/
theorem c4_depth_found_immutable_witness :
    regFind (addLink [] "p1" 0 ("http://example.com/x", ["t"])) "http://example.com/x" =
      some ⟨"http://example.com/x", ["t"], ["p1"], 0⟩ ∧
    ∃ r', regFind (applySteps [("http://example.com/x",
        (⟨"http://example.com/x", ["t"], ["p1"], 0⟩ : LinkRecord))]
        [⟨"p2", 3, "http://example.com/x", ["s"]⟩]) "http://example.com/x" = some r' ∧
      r'.depth_found = 0 ∧ ∃ t, r'.found_on_urls = ["p1"] ++ t := by
  constructor
  · exact (c4_depth_found_immutable [] "http://example.com/x").1 "p1" 0 ["t"] rfl
  · exact (c4_depth_found_immutable
      [("http://example.com/x", (⟨"http://example.com/x", ["t"], ["p1"], 0⟩ : LinkRecord))]
      "http://example.com/x").2 [⟨"p2", 3, "http://example.com/x", ["s"]⟩] _ rfl

/-- C5 counterexample: with concurrency bound `C = 2` and delay `D = 10`,
three tasks can produce the dispatch trace `[100, 110, 110]` — the last two
dispatches are simultaneous, closer than `D`.  The delay check and the
timestamp update are separated by the `asyncio.sleep` suspension point and
the delay is not re-checked on wake, so two tasks that both read
`last_request_time = 100` both sleep until 110 and both dispatch. -/
theorem c5_counterexample :
    RLReaches 2 10 (rlInit 100) ⟨110, 110, [100, 110, 110], 0, []⟩ ∧
    ¬ Spaced 10 [100, 110, 110] := by
  constructor
  · have r1 : RLReaches 2 10 (rlInit 100) ⟨100, 0, [], 1, []⟩ :=
      Relation.ReflTransGen.refl.tail (RLStep.enter _ (by decide))
    have r2 : RLReaches 2 10 (rlInit 100) ⟨100, 100, [100], 0, []⟩ :=
      r1.tail (RLStep.dispatchNow _ (by decide) (by decide))
    have r3 : RLReaches 2 10 (rlInit 100) ⟨100, 100, [100], 1, []⟩ :=
      r2.tail (RLStep.enter _ (by decide))
    have r4 : RLReaches 2 10 (rlInit 100) ⟨100, 100, [100], 2, []⟩ :=
      r3.tail (RLStep.enter _ (by decide))
    have r5 : RLReaches 2 10 (rlInit 100) ⟨105, 100, [100], 2, []⟩ :=
      r4.tail (RLStep.advance _ 5)
    have r6 : RLReaches 2 10 (rlInit 100) ⟨105, 100, [100], 1, [110]⟩ :=
      r5.tail (RLStep.goSleep _ (by decide) (by decide))
    have r7 : RLReaches 2 10 (rlInit 100) ⟨105, 100, [100], 0, [110, 110]⟩ :=
      r6.tail (RLStep.goSleep _ (by decide) (by decide))
    have r8 : RLReaches 2 10 (rlInit 100) ⟨110, 100, [100], 0, [110, 110]⟩ :=
      r7.tail (RLStep.advance _ 5)
    have r9 : RLReaches 2 10 (rlInit 100) ⟨110, 110, [100, 110], 0, [110]⟩ :=
      r8.tail (RLStep.wake _ 110 (by decide) (by decide))
    exact r9.tail (RLStep.wake _ 110 (by decide) (by decide))
  · intro h
    unfold Spaced at h
    rw [List.chain'_cons, List.chain'_cons] at h
    omega

/-- C5 amended: when the concurrency bound is `C = 1`, successive dispatch
times are separated by at least `D`. -/
theorem c5_spacing_when_single (D t0 : Nat) (s : RLState)
    (h : RLReaches 1 D (rlInit t0) s) : Spaced D s.dispatches :=
  (RLInv_reaches D (rlInit t0) s h
    ⟨List.chain'_nil, rfl, by simp [rlInit], by intro w hw; simp [rlInit] at hw⟩).1

/-- Witness for C5 amended: a concrete `C = 1`, `D = 7` execution whose two
dispatches at times 50 and 57 are spaced by `D`. -/
theorem c5_spacing_when_single_witness : Spaced 7 [50, 57] := by
  have h0 : RLReaches 1 7 (rlInit 50) ⟨57, 57, [50, 57], 0, []⟩ := by
    have r1 : RLReaches 1 7 (rlInit 50) ⟨50, 0, [], 1, []⟩ :=
      Relation.ReflTransGen.refl.tail (RLStep.enter _ (by decide))
    have r2 : RLReaches 1 7 (rlInit 50) ⟨50, 50, [50], 0, []⟩ :=
      r1.tail (RLStep.dispatchNow _ (by decide) (by decide))
    have r3 : RLReaches 1 7 (rlInit 50) ⟨50, 50, [50], 1, []⟩ :=
      r2.tail (RLStep.enter _ (by decide))
    have r4 : RLReaches 1 7 (rlInit 50) ⟨50, 50, [50], 0, [57]⟩ :=
      r3.tail (RLStep.goSleep _ (by decide) (by decide))
    have r5 : RLReaches 1 7 (rlInit 50) ⟨57, 50, [50], 0, [57]⟩ :=
      r4.tail (RLStep.advance _ 7)
    exact r5.tail (RLStep.wake _ 57 (by decide) (by decide))
  exact c5_spacing_when_single 7 50 _ h0

/-- C6 (code bug): with `max_depth = 0` the crawl entry point issues no
fetch at all — not even of the seed — and returns an empty registry,
because the loop guard `current_depth < self.max_depth` is `0 < 0`.  This
contradicts the function's own docstring "(0 = start page only)".  With
`max_depth = 1` the seed page is fetched, which is the behaviour the claim
describes for 0. -/
theorem c6_maxdepth_zero_fetches_nothing :
    (∀ (oracle : String → Option (List (String × List String))) (startUrl : String),
      (crawl oracle startUrl 0).allLinks = [] ∧ (crawl oracle startUrl 0).fetched = []) ∧
    (crawl (fun _ => some [("https://example.com/a", ["t"])]) "https://example.com" 1).fetched =
      ["https://example.com"] := by
  refine ⟨fun oracle startUrl => ⟨rfl, rfl⟩, by decide⟩

/-- C7 counterexample: a link rediscovered on page `p2` with the new
associated text `"new"` does not get that text unioned into its existing
record — the aggregation only appends to `found_on_urls` and leaves
`associated_texts` at `["old"]`. -/
theorem c7_counterexample :
    regFind (addLink [("http://example.com/x",
        (⟨"http://example.com/x", ["old"], ["p1"], 0⟩ : LinkRecord))]
        "p2" 1 ("http://example.com/x", ["new"])) "http://example.com/x" =
      some ⟨"http://example.com/x", ["old"], ["p1", "p2"], 0⟩ ∧
    ∀ r, regFind (addLink [("http://example.com/x",
        (⟨"http://example.com/x", ["old"], ["p1"], 0⟩ : LinkRecord))]
        "p2" 1 ("http://example.com/x", ["new"])) "http://example.com/x" = some r →
      "new" ∉ r.associated_texts := by
  refine ⟨by decide, ?_⟩
  intro r h
  have : r = ⟨"http://example.com/x", ["old"], ["p1", "p2"], 0⟩ := by
    have h0 : regFind (addLink [("http://example.com/x",
        (⟨"http://example.com/x", ["old"], ["p1"], 0⟩ : LinkRecord))]
        "p2" 1 ("http://example.com/x", ["new"])) "http://example.com/x" =
        some ⟨"http://example.com/x", ["old"], ["p1", "p2"], 0⟩ := by decide
    rw [h0] at h
    exact (Option.some.inj h).symm
  subst this
  decide

/-- C7 amended: when the link's URL already has a record, the current page
is appended to `found_on_urls` if not already present, and
`associated_texts` (and `depth_found`) are left unchanged — newly seen
texts are discarded. -/
theorem c7_existing_record_update (reg : Registry) (p : String) (d : Nat)
    (u : String) (ts : List String) (r : LinkRecord)
    (h : regFind reg u = some r) :
    regFind (addLink reg p d (u, ts)) u =
      some (if p ∈ r.found_on_urls then r
            else { r with found_on_urls := r.found_on_urls ++ [p] }) :=
  regFind_addLink_existing reg p d u ts r h

/-- Witness for C7 amended: concrete rediscovery on a fresh page appends the
page and keeps the texts. -/
theorem c7_existing_record_update_witness :
    regFind (addLink [("u", (⟨"u", ["a"], ["q1"], 2⟩ : LinkRecord))] "q2" 5 ("u", ["b"])) "u" =
      some (if "q2" ∈ (["q1"] : List String) then (⟨"u", ["a"], ["q1"], 2⟩ : LinkRecord)
            else ⟨"u", ["a"], ["q1", "q2"], 2⟩) :=
  c7_existing_record_update [("u", ⟨"u", ["a"], ["q1"], 2⟩)] "q2" 5 "u" ["b"]
    ⟨"u", ["a"], ["q1"], 2⟩ rfl

/-- C8 (code bug): the `accept_texts` pattern is the raw string
`r"\\b(...)\\b"`, whose double backslash makes the regex match a literal
backslash-`b` rather than a word boundary, so `"Accept all"` never matches;
on a page whose only consent signal is an `<button>Accept all</button>`,
`find_cookie_consent_candidates` returns no snippet at all, where the claim
requires at least one. -/
theorem c8_accept_button_not_detected :
    acceptSearch "Accept all" = false ∧
    find_cookie_consent_candidates cookieExampleDoc 5 = [] := by
  exact ⟨by decide, by decide⟩

set_option maxRecDepth 100000 in
/-- C9 (code bug): the pagination redundancy filter sorts containers
*ascending* by serialized size and then drops a container only when it is a
descendant of an already-accepted (hence smaller) one — which never
happens, so nested containers all survive.  On the keyword-bearing
wrapper page `pagExampleDoc` the final containers are the `nav`, its `div`
ancestor and the whole document: the first returned snippet's root is a
strict descendant of the second's (and the scenario's "exactly one
snippet" fails, three are returned). -/
theorem c9_nested_containers_survive :
    pagFinalContainers pagExampleDoc = [[0, 0, 0, 0], [0, 0, 0], []] ∧
    (find_pagination_candidates pagExampleDoc 5).length = 3 ∧
    strictBelow [0, 0, 0, 0] [0, 0, 0] = true := by
  exact ⟨by decide, by decide, by decide⟩

/-- C10: for every parsed page, every resolved normalization map and every
base URL, each record returned by `extract_links_with_text` has a non-empty
`url`, a non-empty `associated_texts` list and `found_on_url` equal to the
base URL, and the records' `url` values are pairwise distinct. -/
theorem c10_extract_links_records (norm : String → String) (doc : Doc) (base_url : String) :
    ((extract_links_with_text norm doc base_url).map (fun e => e.url)).Nodup ∧
    ∀ e ∈ extract_links_with_text norm doc base_url,
      e.url ≠ "" ∧ e.associated_texts ≠ [] ∧ e.found_on_url = base_url := by
  have hgood := groupPairs_good (anchorPairs norm doc) (anchorPairs_snd_ne_nil norm doc)
  constructor
  · unfold extract_links_with_text
    rw [List.map_map]
    exact hgood.1
  · intro e he
    unfold extract_links_with_text at he
    rw [List.mem_map] at he
    obtain ⟨kv, hkv, rfl⟩ := he
    have h := hgood.2 kv hkv
    exact ⟨h.1, h.2, rfl⟩

/-- Witness for C10: on `linksExampleDoc` — two anchors for the same link
and one whose href normalizes to the empty string — the returned urls are
duplicate-free and the single record is well-formed. -/
theorem c10_extract_links_records_witness :
    ((extract_links_with_text linksExampleNorm linksExampleDoc "https://example.com").map
      (fun e => e.url)).Nodup ∧
    ((⟨"https://example.com/a", ["one", "two"], "https://example.com"⟩ : ExtractedLink).url ≠ "" ∧
     (⟨"https://example.com/a", ["one", "two"], "https://example.com"⟩ : ExtractedLink).associated_texts ≠ [] ∧
     (⟨"https://example.com/a", ["one", "two"], "https://example.com"⟩ : ExtractedLink).found_on_url =
       "https://example.com") := by
  refine ⟨(c10_extract_links_records linksExampleNorm linksExampleDoc "https://example.com").1, ?_⟩
  exact (c10_extract_links_records linksExampleNorm linksExampleDoc "https://example.com").2
    ⟨"https://example.com/a", ["one", "two"], "https://example.com"⟩ (by decide)

end WebScraper
